import Mathlib

/-!
# Verification of the family-calendar ingestion engine

Shallow embedding of the calendar ingestion and normalization engine
(`src/utils/ical.ts` and the `useCalendars` hook) in Lean 4.

Modelling conventions:

* A JavaScript `Date` is modelled by `DateTime`: the local calendar day
  number (`day`, days since an arbitrary epoch in the viewer's fixed local
  zone) together with the millisecond offset within that local day
  (`msOfDay`).  `getTime` is the linear encoding `day * 86400000 + msOfDay`,
  which agrees with JavaScript's epoch-milliseconds on every `Date` whose
  `msOfDay` lies in `[0, 86400000)` in a fixed-offset local zone.
  `setHours(...)` and `setDate(getDate() + k)` become field updates.
* The `YYYY-MM-DD` local date key produced by `toLocalDateKey` is modelled
  by the local day number itself (the string rendering of a calendar date
  is a bijection, so day-key equality/membership is preserved exactly).
* ICS text is modelled as `List Char`; JavaScript strings used as opaque
  values (ids, uids, titles) are Lean `String`s.
* `ical.js` is an external library.  Its iterator and parsed records are
  modelled abstractly: a `VEvent` carries the fields the engine reads
  (`recurrence-id` presence, `startDate`, `endDate`, `isRecurring`, uid /
  summary / location) plus the chronological occurrence stream the
  library's iterator would yield.
-/

/-- Milliseconds per calendar day. -/
def msPerDay : Int := 86400000

/-- Model of a JavaScript `Date` in the viewer's (fixed-offset) local zone:
local day number plus millisecond offset within the day. -/
structure DateTime where
  day : Int
  msOfDay : Int
deriving DecidableEq, Repr

/-- `Date.prototype.getTime`: epoch milliseconds of the instant. -/
def DateTime.getTime (d : DateTime) : Int :=
  d.day * msPerDay + d.msOfDay

/-- `startOfDay` from `ical.ts`: copy the date, `setHours(0, 0, 0, 0)`. -/
def startOfDay (d : DateTime) : DateTime :=
  { day := d.day, msOfDay := 0 }

/-- `toLocalDateKey` from `ical.ts`: the local calendar date of the instant
("YYYY-MM-DD"), modelled by the local day number. -/
def toLocalDateKey (d : DateTime) : Int :=
  d.day

/-- `WEEKDAY_COUNT` from `ical.ts` (Mon-Fri). -/
def WEEKDAY_COUNT : Nat := 5

/-- End-of-day millisecond offset set by `setHours(23, 59, 59, 999)`. -/
def endOfDayMs : Int := 86399999

/-- `endOfWeekdays` from `ical.ts`: copy `start`, `setDate(getDate() +
WEEKDAY_COUNT)`, then `setHours(23, 59, 59, 999)`. -/
def endOfWeekdays (start : DateTime) : DateTime :=
  { day := start.day + (WEEKDAY_COUNT : Int), msOfDay := endOfDayMs }

/-- The `CalendarEvent` record from `types.ts`.  The source field `end` is
named `endTime` here because `end` is a Lean keyword. -/
structure CalendarEvent where
  id : String
  title : String
  start : DateTime
  endTime : DateTime
  allDay : Bool
  calendarId : String
  calendarName : String
  color : String
  location : Option String
deriving DecidableEq, Repr

/-- `filterEventsForWeek` from `ical.ts`. -/
def filterEventsForWeek (events : List CalendarEvent) (weekStart : DateTime) :
    List CalendarEvent :=
  let start := startOfDay weekStart
  let e := endOfWeekdays start
  events.filter (fun ev =>
    decide (ev.endTime.getTime > start.getTime) &&
    decide (ev.start.getTime < e.getTime))

/-- Window-end instant as the spec's words describe it for the week filter:
23:59:59.999 local time of the fifth day of the Mon-Fri window (i.e. of
`weekStart + 4` days, Friday for a Monday start).  Used only to compare the
spec sentence against the code's `endOfWeekdays`. -/
def specFifthDayWindowEnd (weekStart : DateTime) : DateTime :=
  { day := (startOfDay weekStart).day + 4, msOfDay := endOfDayMs }

/-- JavaScript `Map.prototype.set` (also string-keyed `Record` assignment)
on an insertion-ordered association list: replace the value in place if the
key exists, else append. -/
def mapSet {κ α : Type} [DecidableEq κ] : List (κ × α) → κ → α → List (κ × α)
  | [], k, v => [(k, v)]
  | (k', v') :: rest, k, v =>
    if k' = k then (k, v) :: rest else (k', v') :: mapSet rest k v

/-- JavaScript `Map.prototype.get` / `Record` lookup (as an `Option`). -/
def mapGet? {κ α : Type} [DecidableEq κ] : List (κ × α) → κ → Option α
  | [], _ => none
  | (k', v') :: rest, k => if k' = k then some v' else mapGet? rest k

/-- JavaScript `Map.prototype.has`. -/
def mapHas {κ α : Type} [DecidableEq κ] (m : List (κ × α)) (k : κ) : Bool :=
  (mapGet? m k).isSome

/-- Comparator used by `groupEventsByDay`'s per-bucket sort
(`(a, b) => a.start.getTime() - b.start.getTime()`, ascending). -/
def startLE (a b : CalendarEvent) : Bool :=
  decide (a.start.getTime ≤ b.start.getTime)

/-- The per-event step of `groupEventsByDay`: push the event onto the
bucket for its start's local date key when that bucket exists
(`if (map.has(dayKey)) map.get(dayKey)!.push(ev)`), else drop it. -/
def groupStep (m : List (Int × List CalendarEvent)) (ev : CalendarEvent) :
    List (Int × List CalendarEvent) :=
  let dayKey := toLocalDateKey ev.start
  match mapGet? m dayKey with
  | some arr => mapSet m dayKey (arr ++ [ev])
  | none => m

/-- `groupEventsByDay` from `ical.ts`: seed one empty bucket per requested
date key, drop each event into the bucket matching its start's local date
key when that bucket exists, then stable-sort each bucket by start time. -/
def groupEventsByDay (events : List CalendarEvent) (dateKeys : List Int) :
    List (Int × List CalendarEvent) :=
  let m := dateKeys.foldl (fun m k => mapSet m k []) []
  let m2 := events.foldl groupStep m
  m2.map (fun p => (p.1, p.2.mergeSort startLE))

/-- `getWeekDateKeys` from `ical.ts`: the 5 weekday date keys (Mon-Fri)
from the week start. -/
def getWeekDateKeys (weekStart : DateTime) : List Int :=
  let start := startOfDay weekStart
  (List.range WEEKDAY_COUNT).map (fun i =>
    toLocalDateKey { day := start.day + (i : Int), msOfDay := start.msOfDay })

/-- The merged event collection from `useCalendars`
(`Object.values(eventsByCalendar).flat()`): the per-feed event lists of the
insertion-ordered feed-state record, concatenated. -/
def mergeFeeds (feedStates : List (String × List CalendarEvent)) :
    List CalendarEvent :=
  (feedStates.map Prod.snd).flatten

/-- JavaScript whitespace (the ASCII core of `\s` / `trim`). -/
def isWS (c : Char) : Bool :=
  c == ' ' || c == '\t' || c == '\n' || c == '\r' || c == '\x0b' || c == '\x0c'

/-- JavaScript `String.prototype.trim` on a character list. -/
def trimWS (l : List Char) : List Char :=
  ((l.dropWhile isWS).reverse.dropWhile isWS).reverse

/-- JavaScript `String.prototype.trim` on a Lean string. -/
def trimString (s : String) : String :=
  String.mk (trimWS s.data)

/-- Decimal digits, most significant first, with explicit fuel (any fuel
at least the value itself suffices; structural recursion keeps the
definition kernel-computable). -/
def natDigitsAux : Nat → Nat → List Nat
  | 0, n => [n]
  | fuel + 1, n => if n < 10 then [n] else natDigitsAux fuel (n / 10) ++ [n % 10]

/-- Decimal digits of a natural number, most significant first. -/
def natDigits (n : Nat) : List Nat :=
  natDigitsAux n n

/-- A decimal digit as a character. -/
def digitChar (d : Nat) : Char :=
  match d with
  | 0 => '0'
  | 1 => '1'
  | 2 => '2'
  | 3 => '3'
  | 4 => '4'
  | 5 => '5'
  | 6 => '6'
  | 7 => '7'
  | 8 => '8'
  | _ => '9'

/-- JavaScript `String(n)` for a non-negative integer. -/
def natStr (n : Nat) : String :=
  String.mk ((natDigits n).map digitChar)

/-- JavaScript `String(n)` / template-literal stringification of an integer
(the engine only stringifies integral millisecond values). -/
def intStr : Int → String
  | Int.ofNat n => natStr n
  | Int.negSucc n => "-" ++ natStr (n + 1)

/-- The fields of an `ICAL.Event`-like object that `pushEvent` reads:
`summary`, `uid`, `location` and `startDate.isDate`. -/
structure PushInfo where
  uid : Option String
  summary : Option String
  location : Option String
  startDateIsDate : Bool
deriving DecidableEq, Repr

/-- An `ICAL.Time` as the engine consumes it: the resolved instant
(`toJSDate()`) plus the `isDate` flag (bare date vs date-time). -/
structure ICalTime where
  date : DateTime
  isDate : Bool
deriving DecidableEq, Repr

/-- One value produced by `event.iterator()` for a recurring event, together
with the `getOccurrenceDetails` result the engine reads for it: the
occurrence instant (`occ.toJSDate()`), the occurrence's own start and end,
and `details.item` when it differs from the base event. -/
structure Occurrence where
  time : DateTime
  detailStart : ICalTime
  detailEnd : ICalTime
  overrideItem : Option PushInfo
deriving DecidableEq, Repr

/-- A parsed VEVENT sub-component as the engine consumes it via `ical.js`:
presence of a `recurrence-id` property, the `ICAL.Event` accessors the code
reads, and (for recurring events) the chronological occurrence stream the
library's iterator yields. -/
structure VEvent where
  hasRecurrenceId : Bool
  uid : Option String
  summary : Option String
  location : Option String
  startDate : Option ICalTime
  endDate : ICalTime
  isRecurring : Bool
  occurrences : List Occurrence
deriving DecidableEq, Repr

/-- The `PushInfo` view of a base `VEvent` whose `startDate` is `sd`. -/
def basePushInfo (v : VEvent) (sd : ICalTime) : PushInfo :=
  { uid := v.uid, summary := v.summary, location := v.location,
    startDateIsDate := sd.isDate }

/-- Title placeholder from `pushEvent`. -/
def noTitle : String := "(No title)"

/-- The event record `pushEvent` from `ical.ts` constructs: title is the
trimmed summary or the placeholder; uid is the source uid, or
`start.getTime()-summary` when the uid is absent or empty (JS falsiness);
id is `calendarId-uid` with `-occurrenceId` appended when present; location
is the trimmed source location or absent when blank. -/
def mkPushedEvent (info : PushInfo) (start endd : DateTime)
    (calendarId calendarName color : String) (occurrenceId : Option String) :
    CalendarEvent :=
  let summary :=
    match info.summary with
    | some s => if trimString s = "" then noTitle else trimString s
    | none => noTitle
  let uid :=
    match info.uid with
    | some u => if u = "" then intStr start.getTime ++ "-" ++ summary else u
    | none => intStr start.getTime ++ "-" ++ summary
  let id :=
    match occurrenceId with
    | some oid => calendarId ++ "-" ++ uid ++ "-" ++ oid
    | none => calendarId ++ "-" ++ uid
  let location :=
    match info.location with
    | some l => if trimString l = "" then none else some (trimString l)
    | none => none
  { id := id, title := summary, start := start, endTime := endd,
    allDay := info.startDateIsDate, calendarId := calendarId,
    calendarName := calendarName, color := color, location := location }

/-- `pushEvent` from `ical.ts`: build the event record and append it. -/
def pushEvent (events : List CalendarEvent) (info : PushInfo)
    (start endd : DateTime) (calendarId calendarName color : String)
    (occurrenceId : Option String) : List CalendarEvent :=
  events ++
    [mkPushedEvent info start endd calendarId calendarName color occurrenceId]

/-- `RECURRENCE_EXPAND_DAYS_PAST` from `ical.ts`. -/
def RECURRENCE_EXPAND_DAYS_PAST : Int := 7

/-- `RECURRENCE_EXPAND_DAYS_FUTURE` from `ical.ts`. -/
def RECURRENCE_EXPAND_DAYS_FUTURE : Int := 90

/-- `maxOccurrences` from `parseICSEvents`. -/
def maxOccurrences : Nat := 500

/-- The recurrence-expansion `while` loop of `parseICSEvents`.  `fuel` is
`maxOccurrences - count`; each iterator value consumed decrements it.  An
occurrence later than the window end breaks; one before the window start is
skipped (`continue`); otherwise the occurrence is pushed with the occurrence
instant's milliseconds as the id discriminator. -/
def expandLoop (base : PushInfo) (rs re : Int)
    (calendarId calendarName color : String) :
    List Occurrence → Nat → List CalendarEvent → List CalendarEvent
  | _, 0, events => events
  | [], _ + 1, events => events
  | occ :: rest, fuel + 1, events =>
    let t := occ.time.getTime
    if t > re then events
    else if t < rs then
      expandLoop base rs re calendarId calendarName color rest fuel events
    else
      expandLoop base rs re calendarId calendarName color rest fuel
        (pushEvent events (occ.overrideItem.getD base) occ.detailStart.date
          occ.detailEnd.date calendarId calendarName color (some (intStr t)))

/-- The body of `parseICSEvents`' loop over VEVENT sub-components. -/
def parseVEventStep (rs re : Int) (calendarId calendarName color : String)
    (events : List CalendarEvent) (v : VEvent) : List CalendarEvent :=
  if v.hasRecurrenceId then events
  else
    match v.startDate with
    | none => events
    | some sd =>
      if v.isRecurring then
        expandLoop (basePushInfo v sd) rs re calendarId calendarName color
          v.occurrences maxOccurrences events
      else
        pushEvent events (basePushInfo v sd) sd.date v.endDate.date
          calendarId calendarName color none

/-- `parseICSEvents` from `ical.ts`, over the extracted VEVENT
sub-components.  `now` is the current time (`new Date()`); the expansion
window is `[now - 7 days, now + 90 days]` (calendar-day arithmetic via
`setDate`). -/
def parseICSEvents (vevents : List VEvent) (now : DateTime)
    (calendarId calendarName color : String) : List CalendarEvent :=
  let rangeEnd : DateTime :=
    { day := now.day + RECURRENCE_EXPAND_DAYS_FUTURE, msOfDay := now.msOfDay }
  let rangeStart : DateTime :=
    { day := now.day - RECURRENCE_EXPAND_DAYS_PAST, msOfDay := now.msOfDay }
  vevents.foldl
    (parseVEventStep rangeStart.getTime rangeEnd.getTime
      calendarId calendarName color) []

/-- The event `expandLoop` pushes for an in-window occurrence. -/
def occEvent (base : PushInfo) (calendarId calendarName color : String)
    (occ : Occurrence) : CalendarEvent :=
  mkPushedEvent (occ.overrideItem.getD base) occ.detailStart.date
    occ.detailEnd.date calendarId calendarName color
    (some (intStr occ.time.getTime))

/-- The list of events `expandLoop` emits (without the accumulator);
`expandLoop base rs re c n col occs fuel events = events ++ expandEmit ...`
is proved below. -/
def expandEmit (base : PushInfo) (rs re : Int)
    (calendarId calendarName color : String) :
    List Occurrence → Nat → List CalendarEvent
  | _, 0 => []
  | [], _ + 1 => []
  | occ :: rest, fuel + 1 =>
    let t := occ.time.getTime
    if t > re then []
    else if t < rs then
      expandEmit base rs re calendarId calendarName color rest fuel
    else
      occEvent base calendarId calendarName color occ ::
        expandEmit base rs re calendarId calendarName color rest fuel

/-- Modelled from the spec's words, for comparison with the source loop
(claim C1): the expansion walk in which occurrences before the window start
are skipped *without* counting against the 500 cap (only emitted
occurrences consume the cap). -/
def expandEmitSpecCap (base : PushInfo) (rs re : Int)
    (calendarId calendarName color : String) :
    List Occurrence → Nat → List CalendarEvent
  | _, 0 => []
  | [], _ + 1 => []
  | occ :: rest, fuel + 1 =>
    let t := occ.time.getTime
    if t > re then []
    else if t < rs then
      expandEmitSpecCap base rs re calendarId calendarName color rest (fuel + 1)
    else
      occEvent base calendarId calendarName color occ ::
        expandEmitSpecCap base rs re calendarId calendarName color rest fuel

/-- Strip a leading byte-order mark (`charCodeAt(0) === 0xfeff`). -/
def stripBOM (s : List Char) : List Char :=
  match s with
  | [] => []
  | c :: rest => if c = '\uFEFF' then rest else c :: rest

/-- Split ICS text at `\r\n`, `\n` or `\r` (the regex alternation of
`fixBrokenLineFolding`, `\r\n` preferred): returns the separator-terminated
segments processed inside the loop, and the trailing remainder after the
last separator (pushed unprocessed by the source when nonempty). -/
def splitSegsGo (cur : List Char) : List Char → List (List Char) × List Char
  | [] => ([], cur.reverse)
  | '\r' :: '\n' :: rest =>
    let p := splitSegsGo [] rest
    (cur.reverse :: p.1, p.2)
  | '\r' :: rest =>
    let p := splitSegsGo [] rest
    (cur.reverse :: p.1, p.2)
  | '\n' :: rest =>
    let p := splitSegsGo [] rest
    (cur.reverse :: p.1, p.2)
  | c :: rest => splitSegsGo (c :: cur) rest

/-- Append `suffix` to the last line (`lines[lines.length - 1] += ...`). -/
def appendToLast : List (List Char) → List Char → List (List Char)
  | [], suffix => [suffix]
  | [l], suffix => [l ++ suffix]
  | l :: l' :: rest, suffix => l :: appendToLast (l' :: rest) suffix

/-- One iteration of `fixBrokenLineFolding`'s loop: a nonempty line that
contains no `;` or `:`, is not a whitespace-led continuation, and has a
predecessor is merged into the previous line as an escaped newline;
otherwise it is pushed as its own line. -/
def foldLinesStep (lines : List (List Char)) (line : List Char) :
    List (List Char) :=
  let trimmed := line.dropWhile isWS
  let isContinuation :=
    decide (line ≠ []) &&
      (line.headD ' ' == ' ' || line.headD ' ' == '\t')
  let looksLikeProperty := trimmed.contains ';' || trimmed.contains ':'
  if !looksLikeProperty && !isContinuation && decide (trimmed ≠ []) &&
      decide (lines ≠ []) then
    appendToLast lines ('\\' :: 'n' :: trimmed)
  else
    lines ++ [line]

/-- `fixBrokenLineFolding` from `ical.ts`: process each separator-terminated
line through `foldLinesStep`, push the trailing remainder verbatim when
nonempty, and rejoin with CRLF. -/
def fixBrokenLineFolding (text : List Char) : List Char :=
  let p := splitSegsGo [] text
  let lines := p.1.foldl foldLinesStep []
  let lines := if p.2 ≠ [] then lines ++ [p.2] else lines
  List.intercalate ['\r', '\n'] lines

/-- JavaScript `String.prototype.trimEnd`. -/
def trimEndWS (l : List Char) : List Char :=
  (l.reverse.dropWhile isWS).reverse

/-- ASCII lowering, the case folding the `/i` regex flag performs on the
ASCII-only patterns involved. -/
def lowerAscii (c : Char) : Char :=
  if 'A' ≤ c ∧ c ≤ 'Z' then Char.ofNat (c.toNat + 32) else c

/-- Case-insensitively strip `pat` from the front of `s`, returning the
rest on success. -/
def stripCI : List Char → List Char → Option (List Char)
  | [], s => some s
  | _ :: _, [] => none
  | p :: ps, c :: cs =>
    if lowerAscii p = lowerAscii c then stripCI ps cs else none

/-- `/pat/i.test(s)` for a literal pattern: some suffix starts with `pat`
up to ASCII case. -/
def containsCI (pat : List Char) : List Char → Bool
  | [] => (stripCI pat []).isSome
  | c :: rest => (stripCI pat (c :: rest)).isSome || containsCI pat rest

/-- A `$` match point for an `/m` regex after consuming `\s*`: the current
position is end-of-input or precedes a line terminator, possibly after
consuming whitespace. -/
def wsThenEol : List Char → Bool
  | [] => true
  | c :: rest => c == '\n' || c == '\r' || (isWS c && wsThenEol rest)

/-- The characters of the calendar-begin marker. -/
def beginVCalendarChars : List Char := "BEGIN:VCALENDAR".data

/-- The characters of the calendar-end marker. -/
def endVCalendarChars : List Char := "END:VCALENDAR".data

/-- CRLF. -/
def crlfChars : List Char := ['\r', '\n']

/-- `/END:VCALENDAR\s*$/im.test(s)`: some suffix starts with the end marker
(ASCII case-insensitively) followed by whitespace up to a line end. -/
def hasEndMarkerCI : List Char → Bool
  | [] => false
  | c :: rest =>
    (match stripCI endVCalendarChars (c :: rest) with
     | some after => wsThenEol after
     | none => false) || hasEndMarkerCI rest

/-- The normalization pipeline of `normalizeICSText` before the terminator
repair: strip BOM, fix broken line folding, trim trailing whitespace. -/
def preNormalize (icsText : List Char) : List Char :=
  trimEndWS (fixBrokenLineFolding (stripBOM icsText))

/-- `normalizeICSText` from `ical.ts`. -/
def normalizeICSText (icsText : List Char) : List Char :=
  let s := preNormalize icsText
  if containsCI beginVCalendarChars s && !hasEndMarkerCI s then
    s ++ crlfChars ++ endVCalendarChars
  else
    s

/-- Outcome of `parseICS`'s guard stage: either the not-a-calendar error is
thrown before `ICAL.parse` is ever invoked, or the normalized text is
handed to `ICAL.parse`. -/
inductive ParseOutcome where
  | notCalendar : List Char → ParseOutcome
  | parsed : List Char → ParseOutcome
deriving DecidableEq, Repr

/-- The guard stage of `parseICS` from `ical.ts`: normalize, then throw the
not-a-calendar error when the normalized text lacks a `BEGIN:VCALENDAR`
marker, else invoke the calendar parser on the normalized text. -/
def parseICSGate (icsText : List Char) : ParseOutcome :=
  let normalized := normalizeICSText icsText
  if !containsCI beginVCalendarChars normalized then
    ParseOutcome.notCalendar normalized
  else
    ParseOutcome.parsed normalized

/-- The `CalendarConfig` record from `types.ts` (fields the refresh logic
reads). -/
structure CalendarConfig where
  id : String
  name : String
  url : String
  color : String
  refreshMinutes : Option Int
deriving DecidableEq, Repr

/-- The `updates` record built by `fetchAll` in `useCalendars`: one entry
per feed whose fetch-and-parse succeeded in this cycle.  `result` models
`fetchOneCalendar` (`some` = parsed events, `none` = the call threw). -/
def fetchAllUpdates (config : List CalendarConfig)
    (result : CalendarConfig → Option (List CalendarEvent)) :
    List (String × List CalendarEvent) :=
  config.foldl (fun u cal =>
    match result cal with
    | some parsed => mapSet u cal.id parsed
    | none => u) []

/-- The state merge of `fetchAll`: the next per-feed event record maps each
configured feed id to `updates[cal.id] ?? prev[cal.id] ?? []`. -/
def fetchAllMerge (config : List CalendarConfig)
    (result : CalendarConfig → Option (List CalendarEvent))
    (prev : List (String × List CalendarEvent)) :
    List (String × List CalendarEvent) :=
  let updates := fetchAllUpdates config result
  config.foldl (fun next cal =>
    mapSet next cal.id
      (match mapGet? updates cal.id with
       | some parsed => parsed
       | none => (mapGet? prev cal.id).getD [])) []

/-- Concrete three-feed configuration used for witness checks (feed 2's
retrieval throws). -/
def cfgF1 : CalendarConfig :=
  { id := "f1", name := "a", url := "u1", color := "c1", refreshMinutes := none }

/-- Second concrete feed (the failing one in the witness scenario). -/
def cfgF2 : CalendarConfig :=
  { id := "f2", name := "b", url := "u2", color := "c2", refreshMinutes := none }

/-- Third concrete feed. -/
def cfgF3 : CalendarConfig :=
  { id := "f3", name := "c", url := "u3", color := "c3", refreshMinutes := none }

/-- The three-feed configuration list. -/
def configW : List CalendarConfig := [cfgF1, cfgF2, cfgF3]

/-- A freshly fetched event for a feed, used in the witness scenario. -/
def evNewW (cal : CalendarConfig) : CalendarEvent :=
  { id := "n", title := "n", start := { day := 0, msOfDay := 0 },
    endTime := { day := 0, msOfDay := 1 }, allDay := false,
    calendarId := cal.id, calendarName := cal.name, color := cal.color,
    location := none }

/-- Fetch outcome in the witness scenario: feed `f2` throws, others parse. -/
def resultW (cal : CalendarConfig) : Option (List CalendarEvent) :=
  if cal.id = "f2" then none else some [evNewW cal]

/-- Feed `f2`'s previously cached event in the witness scenario. -/
def evOldW : CalendarEvent :=
  { id := "o", title := "o", start := { day := 1, msOfDay := 0 },
    endTime := { day := 1, msOfDay := 1 }, allDay := false,
    calendarId := "f2", calendarName := "b", color := "c2", location := none }

/-- Previous per-feed state in the witness scenario. -/
def prevW : List (String × List CalendarEvent) := [("f2", [evOldW])]

/-- Base `PushInfo` of the concrete recurring series used in witness and
counterexample checks. -/
def pBaseW : PushInfo :=
  { uid := some "u", summary := some "s", location := none,
    startDateIsDate := false }

/-- An occurrence one day before the expansion window start (day -1,
relative to a window starting at day 0). -/
def occPreW : Occurrence :=
  { time := { day := -1, msOfDay := 0 },
    detailStart := { date := { day := -1, msOfDay := 0 }, isDate := false },
    detailEnd := { date := { day := -1, msOfDay := 3600000 }, isDate := false },
    overrideItem := none }

/-- An occurrence inside the expansion window (day 1). -/
def occInW : Occurrence :=
  { time := { day := 1, msOfDay := 0 },
    detailStart := { date := { day := 1, msOfDay := 0 }, isDate := false },
    detailEnd := { date := { day := 1, msOfDay := 3600000 }, isDate := false },
    overrideItem := none }

/-- A recurring VEVENT whose iterator yields 500 pre-window occurrences
followed by one in-window occurrence. -/
def vRunW : VEvent :=
  { hasRecurrenceId := false, uid := some "u", summary := some "s",
    location := none,
    startDate := some { date := { day := -1, msOfDay := 0 }, isDate := false },
    endDate := { date := { day := -1, msOfDay := 3600000 }, isDate := false },
    isRecurring := true,
    occurrences := List.replicate 500 occPreW ++ [occInW] }

/-- A current time whose expansion window is [day 0, day 97] (days). -/
def nowW : DateTime := { day := 7, msOfDay := 0 }

/-- Value of a most-significant-first decimal digit list (used to prove the
digit rendering injective). -/
def digitsVal (ds : List Nat) : Nat :=
  ds.foldl (fun a d => a * 10 + d) 0

/-- A non-recurring VEVENT with uid "b-c" (for the id-collision check). -/
def vDupA : VEvent :=
  { hasRecurrenceId := false, uid := some "b-c", summary := some "X",
    location := none,
    startDate := some { date := { day := 0, msOfDay := 0 }, isDate := false },
    endDate := { date := { day := 0, msOfDay := 3600000 }, isDate := false },
    isRecurring := false, occurrences := [] }

/-- A non-recurring VEVENT with uid "c" (for the id-collision check). -/
def vDupB : VEvent :=
  { hasRecurrenceId := false, uid := some "c", summary := some "X",
    location := none,
    startDate := some { date := { day := 0, msOfDay := 0 }, isDate := false },
    endDate := { date := { day := 0, msOfDay := 3600000 }, isDate := false },
    isRecurring := false, occurrences := [] }

/-- A second in-window occurrence (day 2), distinct in time from
`occInW`. -/
def occIn2W : Occurrence :=
  { time := { day := 2, msOfDay := 0 },
    detailStart := { date := { day := 2, msOfDay := 0 }, isDate := false },
    detailEnd := { date := { day := 2, msOfDay := 3600000 }, isDate := false },
    overrideItem := none }

/-! ## Basic lemmas about the association-list map model -/

theorem mapGet?_mapSet {κ α : Type} [DecidableEq κ]
    (m : List (κ × α)) (k k' : κ) (v : α) :
    mapGet? (mapSet m k v) k' = if k' = k then some v else mapGet? m k' := by
  induction m with
  | nil =>
    by_cases h : k' = k
    · simp [mapSet, mapGet?, h]
    · simp [mapSet, mapGet?, h, Ne.symm h]
  | cons p rest ih =>
    obtain ⟨pk, pv⟩ := p
    by_cases hpk : pk = k
    · subst hpk
      by_cases h : k' = pk
      · simp [mapSet, mapGet?, h]
      · simp [mapSet, mapGet?, h, Ne.symm h]
    · by_cases h2 : k' = pk
      · subst h2
        simp [mapSet, hpk, mapGet?, Ne.symm hpk]
      · simp [mapSet, hpk, mapGet?, h2, Ne.symm h2, ih]

theorem mem_filterEventsForWeek (events : List CalendarEvent)
    (weekStart : DateTime) (ev : CalendarEvent) :
    ev ∈ filterEventsForWeek events weekStart ↔
      ev ∈ events ∧
        ev.endTime.getTime > (startOfDay weekStart).getTime ∧
        ev.start.getTime < (endOfWeekdays (startOfDay weekStart)).getTime := by
  simp [filterEventsForWeek, List.mem_filter, and_assoc]

/-- C9: merging two feeds' event lists in either order yields the same
events as an unordered collection (a permutation of one another). -/
theorem mergeFeeds_comm_two_feeds (ida idb : String)
    (A B : List CalendarEvent) :
    (mergeFeeds [(ida, A), (idb, B)]).Perm (mergeFeeds [(idb, B), (ida, A)]) := by
  simp only [mergeFeeds, List.map_cons, List.map_nil, List.flatten_cons,
    List.flatten_nil, List.append_nil]
  exact List.perm_append_comm

/-- C2 (amended): `filterEventsForWeek` keeps an event iff its end instant
is strictly after local midnight of `weekStart` and its start instant is
strictly before the window end, where the window end is 23:59:59.999 local
time of the day five days after `weekStart` (the sixth calendar day,
Saturday for a Monday start, not the fifth window day); a zero-duration
event exactly at the window start is excluded, and an event starting before
the window but ending inside it is included. -/
theorem filterEventsForWeek_boundaries :
    (∀ (events : List CalendarEvent) (ws : DateTime) (ev : CalendarEvent),
      ev ∈ filterEventsForWeek events ws ↔
        ev ∈ events ∧
          ev.endTime.getTime > (startOfDay ws).getTime ∧
          ev.start.getTime < (endOfWeekdays (startOfDay ws)).getTime) ∧
    (∀ ws : DateTime,
      endOfWeekdays (startOfDay ws) =
        { day := ws.day + 5, msOfDay := endOfDayMs }) ∧
    (¬ ({ id := "z", title := "z", start := { day := 0, msOfDay := 0 },
          endTime := { day := 0, msOfDay := 0 }, allDay := false,
          calendarId := "c", calendarName := "c", color := "c",
          location := none } : CalendarEvent) ∈
        filterEventsForWeek
          [{ id := "z", title := "z", start := { day := 0, msOfDay := 0 },
             endTime := { day := 0, msOfDay := 0 }, allDay := false,
             calendarId := "c", calendarName := "c", color := "c",
             location := none }] { day := 0, msOfDay := 0 }) ∧
    (({ id := "x", title := "x", start := { day := -1, msOfDay := 82800000 },
        endTime := { day := 0, msOfDay := 3600000 }, allDay := false,
        calendarId := "c", calendarName := "c", color := "c",
        location := none } : CalendarEvent) ∈
      filterEventsForWeek
        [{ id := "x", title := "x", start := { day := -1, msOfDay := 82800000 },
           endTime := { day := 0, msOfDay := 3600000 }, allDay := false,
           calendarId := "c", calendarName := "c", color := "c",
           location := none }] { day := 0, msOfDay := 0 }) := by
  refine ⟨mem_filterEventsForWeek, fun ws => rfl, by decide, by decide⟩

/-- C2 (counterexample to the claim as stated): with `weekStart` at day 0,
a zero-duration event at noon of day 5 (Saturday for a Monday start) is
kept by `filterEventsForWeek`, yet its start is not strictly before
23:59:59.999 of the fifth window day (day 4) as the claim's window end
would require. -/
theorem filterEventsForWeek_fifth_day_counterexample :
    (({ id := "s", title := "s", start := { day := 5, msOfDay := 43200000 },
        endTime := { day := 5, msOfDay := 43200000 }, allDay := false,
        calendarId := "c", calendarName := "c", color := "c",
        location := none } : CalendarEvent) ∈
      filterEventsForWeek
        [{ id := "s", title := "s", start := { day := 5, msOfDay := 43200000 },
           endTime := { day := 5, msOfDay := 43200000 }, allDay := false,
           calendarId := "c", calendarName := "c", color := "c",
           location := none }] { day := 0, msOfDay := 0 }) ∧
    ¬ (({ day := 5, msOfDay := 43200000 } : DateTime).getTime <
        (specFifthDayWindowEnd { day := 0, msOfDay := 0 }).getTime) := by
  constructor
  · decide
  · decide

/-! ## Lemmas about `groupEventsByDay` -/

theorem mapGet?_seed (keys : List Int) :
    ∀ (m : List (Int × List CalendarEvent)) (k : Int),
      mapGet? (keys.foldl (fun m k => mapSet m k []) m) k =
        if k ∈ keys then some [] else mapGet? m k := by
  induction keys with
  | nil => intro m k; simp
  | cons k0 rest ih =>
    intro m k
    simp only [List.foldl_cons]
    rw [ih]
    by_cases hk : k ∈ rest
    · simp [hk]
    · by_cases h0 : k = k0
      · subst h0
        simp [hk, mapGet?_mapSet]
      · simp [hk, h0, mapGet?_mapSet]

theorem groupStep_eq (m : List (Int × List CalendarEvent))
    (ev : CalendarEvent) :
    groupStep m ev =
      match mapGet? m (toLocalDateKey ev.start) with
      | some arr => mapSet m (toLocalDateKey ev.start) (arr ++ [ev])
      | none => m := rfl

theorem mapGet?_groupStep_isSome (m : List (Int × List CalendarEvent))
    (ev : CalendarEvent) (k : Int) :
    (mapGet? (groupStep m ev) k).isSome = (mapGet? m k).isSome := by
  rw [groupStep_eq]
  cases harr : mapGet? m (toLocalDateKey ev.start) with
  | none => simp
  | some arr =>
    simp only [mapGet?_mapSet]
    by_cases hk : k = toLocalDateKey ev.start
    · subst hk
      simp [harr]
    · simp [hk]

theorem mapGet?_groupFold_isSome (es : List CalendarEvent) :
    ∀ (m : List (Int × List CalendarEvent)) (k : Int),
      (mapGet? (es.foldl groupStep m) k).isSome = (mapGet? m k).isSome := by
  induction es with
  | nil => intro m k; rfl
  | cons ev rest ih =>
    intro m k
    simp only [List.foldl_cons]
    rw [ih, mapGet?_groupStep_isSome]

theorem groupFold_bucket_inv (S : List CalendarEvent) (es : List CalendarEvent) :
    ∀ (m : List (Int × List CalendarEvent)),
      (∀ e ∈ es, e ∈ S) →
      (∀ k l, mapGet? m k = some l →
        ∀ e ∈ l, e ∈ S ∧ toLocalDateKey e.start = k) →
      ∀ k l, mapGet? (es.foldl groupStep m) k = some l →
        ∀ e ∈ l, e ∈ S ∧ toLocalDateKey e.start = k := by
  induction es with
  | nil =>
    intro m _ hm k l hl e hel
    exact hm k l hl e hel
  | cons ev rest ih =>
    intro m hsub hm
    simp only [List.foldl_cons]
    apply ih
    · intro e he
      exact hsub e (List.mem_cons_of_mem _ he)
    · intro k l hl e hel
      rw [groupStep_eq] at hl
      cases harr : mapGet? m (toLocalDateKey ev.start) with
      | none =>
        simp only [harr] at hl
        exact hm k l hl e hel
      | some arr =>
        simp only [harr] at hl
        simp only [mapGet?_mapSet] at hl
        by_cases hk : k = toLocalDateKey ev.start
        · rw [if_pos hk] at hl
          obtain rfl : arr ++ [ev] = l := by
            injection hl
          rcases List.mem_append.mp hel with h | h
          · have h2 := hm _ _ harr e h
            exact ⟨h2.1, by rw [hk]; exact h2.2⟩
          · obtain rfl : e = ev := by
              simpa using h
            exact ⟨hsub e (List.mem_cons_self _ _), hk.symm⟩
        · rw [if_neg hk] at hl
          exact hm k l hl e hel

theorem mapGet?_map_sort (m : List (Int × List CalendarEvent)) (k : Int) :
    mapGet? (m.map (fun p => (p.1, p.2.mergeSort startLE))) k =
      (mapGet? m k).map (fun l => l.mergeSort startLE) := by
  induction m with
  | nil => rfl
  | cons p rest ih =>
    obtain ⟨pk, pv⟩ := p
    by_cases h : pk = k <;> simp [mapGet?, h, ih]

theorem groupEventsByDay_isSome_iff (events : List CalendarEvent)
    (dateKeys : List Int) (k : Int) :
    (mapGet? (groupEventsByDay events dateKeys) k).isSome = true ↔
      k ∈ dateKeys := by
  unfold groupEventsByDay
  simp only [mapGet?_map_sort]
  have hs : (Option.map (fun l => l.mergeSort startLE)
      (mapGet? (events.foldl groupStep
        (dateKeys.foldl (fun m k => mapSet m k []) [])) k)).isSome =
      (mapGet? (events.foldl groupStep
        (dateKeys.foldl (fun m k => mapSet m k []) [])) k).isSome := by
    cases mapGet? (events.foldl groupStep
        (dateKeys.foldl (fun m k => mapSet m k []) [])) k <;> rfl
  rw [hs, mapGet?_groupFold_isSome, mapGet?_seed]
  by_cases hk : k ∈ dateKeys
  · simp [hk]
  · simp [hk, mapGet?]

theorem groupEventsByDay_bucket_sound (events : List CalendarEvent)
    (dateKeys : List Int) (k : Int) (bucket : List CalendarEvent)
    (hb : mapGet? (groupEventsByDay events dateKeys) k = some bucket) :
    ∀ ev ∈ bucket, ev ∈ events ∧ toLocalDateKey ev.start = k := by
  intro ev hev
  unfold groupEventsByDay at hb
  simp only [mapGet?_map_sort] at hb
  cases hl : mapGet? (events.foldl groupStep
      (dateKeys.foldl (fun m k => mapSet m k []) [])) k with
  | none => rw [hl] at hb; cases hb
  | some l =>
    rw [hl] at hb
    obtain rfl : l.mergeSort startLE = bucket := by
      simpa using hb
    have hevl : ev ∈ l := List.mem_mergeSort.mp hev
    refine groupFold_bucket_inv events events
      (dateKeys.foldl (fun m k => mapSet m k []) [])
      (fun e he => he) ?_ k l hl ev hevl
    intro k' l' hl'
    rw [mapGet?_seed] at hl'
    by_cases hk' : k' ∈ dateKeys
    · rw [if_pos hk'] at hl'
      obtain rfl : ([] : List CalendarEvent) = l' := by
        injection hl'
      intro e he
      cases he
    · rw [if_neg hk'] at hl'
      cases hl'


/-- C10: the map returned by `groupEventsByDay` has exactly the given
`dateKeys` as its key set — every requested key is mapped to a (possibly
empty) bucket and no key outside `dateKeys` ever appears — and every bucket
element is an input event whose start instant's local date key equals the
bucket key. -/
theorem groupEventsByDay_key_set_and_buckets (events : List CalendarEvent)
    (dateKeys : List Int) :
    (∀ k, (mapGet? (groupEventsByDay events dateKeys) k).isSome = true ↔
      k ∈ dateKeys) ∧
    (∀ k bucket, mapGet? (groupEventsByDay events dateKeys) k = some bucket →
      ∀ ev ∈ bucket, ev ∈ events ∧ toLocalDateKey ev.start = k) :=
  ⟨fun k => groupEventsByDay_isSome_iff events dateKeys k,
   fun k bucket hb => groupEventsByDay_bucket_sound events dateKeys k bucket hb⟩

/-- Witness for C10 at a concrete input: the key 7 is requested, hence
present in the grouping of an empty event list (with an empty bucket),
while the unrequested key 9 is absent. -/
theorem groupEventsByDay_key_set_and_buckets_witness :
    ((mapGet? (groupEventsByDay [] [7, 8]) 7).isSome = true) ∧
      ¬ ((mapGet? (groupEventsByDay [] [7, 8]) 9).isSome = true) :=
  ⟨((groupEventsByDay_key_set_and_buckets [] [7, 8]).1 7).mpr (by decide),
   fun h => by
     have h9 := ((groupEventsByDay_key_set_and_buckets [] [7, 8]).1 9).mp h
     simp at h9⟩

/-- C3: an event that passes the week range filter but whose start
instant's local date key is not among the requested date keys is placed in
no day bucket by `groupEventsByDay`, even though it remains present in the
filtered flat event list. -/
theorem groupEventsByDay_drops_cross_window_events
    (events : List CalendarEvent) (ws : DateTime) (dateKeys : List Int)
    (ev : CalendarEvent)
    (_hev : ev ∈ filterEventsForWeek events ws)
    (hkey : toLocalDateKey ev.start ∉ dateKeys) :
    ∀ k bucket,
      mapGet? (groupEventsByDay (filterEventsForWeek events ws) dateKeys) k =
        some bucket → ev ∉ bucket := by
  intro k bucket hb hmem
  have h2 := groupEventsByDay_bucket_sound _ dateKeys k bucket hb ev hmem
  have hk : k ∈ dateKeys := by
    have := (groupEventsByDay_isSome_iff
      (filterEventsForWeek events ws) dateKeys k).mp (by rw [hb]; rfl)
    exact this
  rw [← h2.2] at hk
  exact hkey hk

/-- Witness for C3: an event spanning Sunday 20:00 to Tuesday 06:00 (days
-1 and 1 relative to a Monday week start at day 0) passes the week filter,
its start key (day -1) is not among the 5 window keys, and by the theorem
it lands in no bucket. -/
theorem groupEventsByDay_drops_cross_window_events_witness :
    (({ id := "m", title := "m", start := { day := -1, msOfDay := 72000000 },
        endTime := { day := 1, msOfDay := 21600000 }, allDay := false,
        calendarId := "c", calendarName := "c", color := "c",
        location := none } : CalendarEvent) ∈
      filterEventsForWeek
        [{ id := "m", title := "m", start := { day := -1, msOfDay := 72000000 },
           endTime := { day := 1, msOfDay := 21600000 }, allDay := false,
           calendarId := "c", calendarName := "c", color := "c",
           location := none }] { day := 0, msOfDay := 0 }) ∧
    (∀ k bucket,
      mapGet? (groupEventsByDay
        (filterEventsForWeek
          [{ id := "m", title := "m", start := { day := -1, msOfDay := 72000000 },
             endTime := { day := 1, msOfDay := 21600000 }, allDay := false,
             calendarId := "c", calendarName := "c", color := "c",
             location := none }] { day := 0, msOfDay := 0 })
        (getWeekDateKeys { day := 0, msOfDay := 0 })) k = some bucket →
      ({ id := "m", title := "m", start := { day := -1, msOfDay := 72000000 },
         endTime := { day := 1, msOfDay := 21600000 }, allDay := false,
         calendarId := "c", calendarName := "c", color := "c",
         location := none } : CalendarEvent) ∉ bucket) :=
  ⟨by decide,
   groupEventsByDay_drops_cross_window_events _ _ _ _ (by decide) (by decide)⟩

/-! ## Lemmas about `fetchAll`'s state merge -/

theorem mapGet?_foldl_untouched
    (g : List (String × List CalendarEvent) → CalendarConfig →
      List (String × List CalendarEvent))
    (hg : ∀ u cal k, cal.id ≠ k → mapGet? (g u cal) k = mapGet? u k)
    (cs : List CalendarConfig) :
    ∀ (u : List (String × List CalendarEvent)) (k : String),
      (∀ cal ∈ cs, cal.id ≠ k) → mapGet? (cs.foldl g u) k = mapGet? u k := by
  induction cs with
  | nil => intro u k _; rfl
  | cons c rest ih =>
    intro u k h
    simp only [List.foldl_cons]
    rw [ih (g u c) k (fun cal hc => h cal (List.mem_cons_of_mem _ hc))]
    exact hg u c k (h c (List.mem_cons_self _ _))

theorem updStep_untouched
    (result : CalendarConfig → Option (List CalendarEvent)) :
    ∀ (u : List (String × List CalendarEvent)) (cal : CalendarConfig)
      (k : String), cal.id ≠ k →
      mapGet? (match result cal with
               | some parsed => mapSet u cal.id parsed
               | none => u) k = mapGet? u k := by
  intro u cal k hne
  cases result cal with
  | some parsed =>
    rw [mapGet?_mapSet, if_neg (Ne.symm hne)]
  | none => rfl

theorem fetchAllUpdates_fold_lookup
    (result : CalendarConfig → Option (List CalendarEvent))
    (config : List CalendarConfig) :
    ∀ (u : List (String × List CalendarEvent)),
      (config.map CalendarConfig.id).Nodup →
      ∀ cal ∈ config,
        mapGet? (config.foldl (fun u cal =>
          match result cal with
          | some parsed => mapSet u cal.id parsed
          | none => u) u) cal.id =
        (match result cal with
         | some parsed => some parsed
         | none => mapGet? u cal.id) := by
  induction config with
  | nil =>
    intro u _ cal hc
    cases hc
  | cons c rest ih =>
    intro u hnd cal hc
    simp only [List.map_cons, List.nodup_cons] at hnd
    obtain ⟨hcid, hnd'⟩ := hnd
    simp only [List.foldl_cons]
    rcases List.mem_cons.mp hc with rfl | hc'
    · rw [mapGet?_foldl_untouched _ (updStep_untouched result) rest _ _
        (fun cal' hmem heq =>
          hcid (by rw [← heq]; exact List.mem_map_of_mem _ hmem))]
      cases hr : result cal with
      | some parsed =>
        show mapGet? (mapSet u cal.id parsed) cal.id = some parsed
        rw [mapGet?_mapSet, if_pos rfl]
      | none => rfl
    · rw [ih _ hnd' cal hc']
      have hne : c.id ≠ cal.id := by
        intro heq
        exact hcid (by rw [heq]; exact List.mem_map_of_mem _ hc')
      cases result cal with
      | some parsed => rfl
      | none =>
        exact updStep_untouched result u c cal.id hne
  
theorem mapSet_fold_lookup (val : CalendarConfig → List CalendarEvent)
    (config : List CalendarConfig) :
    ∀ (u : List (String × List CalendarEvent)),
      (config.map CalendarConfig.id).Nodup →
      ∀ cal ∈ config,
        mapGet? (config.foldl (fun next cal =>
          mapSet next cal.id (val cal)) u) cal.id = some (val cal) := by
  induction config with
  | nil =>
    intro u _ cal hc
    cases hc
  | cons c rest ih =>
    intro u hnd cal hc
    simp only [List.map_cons, List.nodup_cons] at hnd
    obtain ⟨hcid, hnd'⟩ := hnd
    simp only [List.foldl_cons]
    rcases List.mem_cons.mp hc with rfl | hc'
    · rw [mapGet?_foldl_untouched _
        (fun u' cal' k hne => by rw [mapGet?_mapSet, if_neg (Ne.symm hne)])
        rest _ _
        (fun cal' hmem heq =>
          hcid (by rw [← heq]; exact List.mem_map_of_mem _ hmem))]
      rw [mapGet?_mapSet, if_pos rfl]
    · exact ih _ hnd' cal hc'

/-- C4: when one feed's fetch or parse fails during a `fetchAll` cycle, the
merged per-feed state afterwards maps every successful feed to its newly
fetched events and every failing feed to its previous event list (or `[]`
when it had none); one feed's failure never removes or alters another
feed's entry. -/
theorem fetchAll_feed_isolation (config : List CalendarConfig)
    (result : CalendarConfig → Option (List CalendarEvent))
    (prev : List (String × List CalendarEvent))
    (hnd : (config.map CalendarConfig.id).Nodup) :
    ∀ cal ∈ config,
      (∀ evs, result cal = some evs →
        mapGet? (fetchAllMerge config result prev) cal.id = some evs) ∧
      (result cal = none →
        mapGet? (fetchAllMerge config result prev) cal.id =
          some ((mapGet? prev cal.id).getD [])) := by
  intro cal hc
  have hupd : mapGet? (fetchAllUpdates config result) cal.id =
      (match result cal with
       | some parsed => some parsed
       | none => none) := by
    unfold fetchAllUpdates
    exact fetchAllUpdates_fold_lookup result config [] hnd cal hc
  have hmerge : mapGet? (fetchAllMerge config result prev) cal.id =
      some (match mapGet? (fetchAllUpdates config result) cal.id with
            | some parsed => parsed
            | none => (mapGet? prev cal.id).getD []) := by
    unfold fetchAllMerge
    exact mapSet_fold_lookup
      (fun cal => match mapGet? (fetchAllUpdates config result) cal.id with
        | some parsed => parsed
        | none => (mapGet? prev cal.id).getD [])
      config [] hnd cal hc
  constructor
  · intro evs hr
    rw [hmerge, hupd, hr]
  · intro hr
    rw [hmerge, hupd, hr]


/-- Witness for C4: three configured feeds where feed `f2`'s retrieval
throws while `f1` and `f3` succeed; the merged state keeps `f1`/`f3`'s new
events and retains `f2`'s previously cached event list. -/
theorem fetchAll_feed_isolation_witness :
    mapGet? (fetchAllMerge configW resultW prevW) "f1" = some [evNewW cfgF1] ∧
    mapGet? (fetchAllMerge configW resultW prevW) "f2" = some [evOldW] ∧
    mapGet? (fetchAllMerge configW resultW prevW) "f3" = some [evNewW cfgF3] := by
  refine ⟨?_, ?_, ?_⟩
  · exact (fetchAll_feed_isolation configW resultW prevW (by decide) cfgF1
      (by decide)).1 [evNewW cfgF1] (by decide)
  · have h := (fetchAll_feed_isolation configW resultW prevW (by decide) cfgF2
      (by decide)).2 (by decide)
    simpa [prevW, mapGet?] using h
  · exact (fetchAll_feed_isolation configW resultW prevW (by decide) cfgF3
      (by decide)).1 [evNewW cfgF3] (by decide)

/-! ## Lemmas about the recurrence-expansion loop and `parseICSEvents` -/

theorem expandLoop_eq_append (base : PushInfo) (rs re : Int)
    (cid cn col : String) (occs : List Occurrence) :
    ∀ (fuel : Nat) (events : List CalendarEvent),
      expandLoop base rs re cid cn col occs fuel events =
        events ++ expandEmit base rs re cid cn col occs fuel := by
  induction occs with
  | nil =>
    intro fuel events
    cases fuel <;> simp [expandLoop, expandEmit]
  | cons occ rest ih =>
    intro fuel events
    cases fuel with
    | zero => simp [expandLoop, expandEmit]
    | succ fuel =>
      simp only [expandLoop, expandEmit]
      by_cases hgt : occ.time.getTime > re
      · simp [hgt]
      · by_cases hlt : occ.time.getTime < rs
        · simp [hgt, hlt, ih]
        · simp only [hgt, hlt, if_false, ih, pushEvent]
          simp [occEvent, List.append_assoc]

theorem parseVEventStep_append (rs re : Int) (cid cn col : String)
    (events : List CalendarEvent) (v : VEvent) :
    parseVEventStep rs re cid cn col events v =
      events ++ parseVEventStep rs re cid cn col [] v := by
  unfold parseVEventStep
  by_cases h1 : v.hasRecurrenceId
  · simp [h1]
  · cases h2 : v.startDate with
    | none => simp [h1]
    | some sd =>
      by_cases h3 : v.isRecurring
      · simp [h1, h3, expandLoop_eq_append]
      · simp [h1, h3, pushEvent]

theorem foldl_parseVEventStep_append (rs re : Int) (cid cn col : String)
    (vs : List VEvent) :
    ∀ (acc : List CalendarEvent),
      vs.foldl (parseVEventStep rs re cid cn col) acc =
        acc ++ vs.foldl (parseVEventStep rs re cid cn col) [] := by
  induction vs with
  | nil => intro acc; simp
  | cons v rest ih =>
    intro acc
    simp only [List.foldl_cons]
    rw [ih (parseVEventStep rs re cid cn col acc v),
      ih (parseVEventStep rs re cid cn col [] v),
      parseVEventStep_append rs re cid cn col acc v, List.append_assoc]

theorem parseICSEvents_append (vs1 vs2 : List VEvent) (now : DateTime)
    (cid cn col : String) :
    parseICSEvents (vs1 ++ vs2) now cid cn col =
      parseICSEvents vs1 now cid cn col ++
        parseICSEvents vs2 now cid cn col := by
  unfold parseICSEvents
  rw [List.foldl_append]
  exact foldl_parseVEventStep_append _ _ _ _ _ _ _

/-- C6: a valid non-recurring VEVENT (has a start, no recurrence rule, not
a recurrence override) contributes exactly one event to `parseICSEvents`,
whose start and end equal the record's own instants and whose `allDay` flag
is true iff the record's start was expressed as a bare date. -/
theorem parseICS_nonrecurring_single (vs1 vs2 : List VEvent) (v : VEvent)
    (sd : ICalTime) (now : DateTime) (cid cn col : String)
    (h1 : v.hasRecurrenceId = false)
    (h2 : v.startDate = some sd)
    (h3 : v.isRecurring = false) :
    parseICSEvents (vs1 ++ v :: vs2) now cid cn col =
      parseICSEvents vs1 now cid cn col ++
        mkPushedEvent (basePushInfo v sd) sd.date v.endDate.date
          cid cn col none ::
          parseICSEvents vs2 now cid cn col ∧
    (mkPushedEvent (basePushInfo v sd) sd.date v.endDate.date
      cid cn col none).start = sd.date ∧
    (mkPushedEvent (basePushInfo v sd) sd.date v.endDate.date
      cid cn col none).endTime = v.endDate.date ∧
    ((mkPushedEvent (basePushInfo v sd) sd.date v.endDate.date
      cid cn col none).allDay = true ↔ sd.isDate = true) := by
  refine ⟨?_, rfl, rfl, Iff.rfl⟩
  rw [show vs1 ++ v :: vs2 = vs1 ++ ([v] ++ vs2) from rfl,
    parseICSEvents_append, parseICSEvents_append]
  have hone : parseICSEvents [v] now cid cn col =
      [mkPushedEvent (basePushInfo v sd) sd.date v.endDate.date
        cid cn col none] := by
    unfold parseICSEvents
    simp only [List.foldl_cons, List.foldl_nil]
    unfold parseVEventStep
    simp [h1, h2, h3, pushEvent]
  rw [hone]
  rfl

/-- Witness for C6 at a concrete non-recurring VEVENT. -/
theorem parseICS_nonrecurring_single_witness :
    parseICSEvents
      [{ hasRecurrenceId := false, uid := some "w", summary := some "t",
         location := none,
         startDate := some { date := { day := 2, msOfDay := 0 }, isDate := true },
         endDate := { date := { day := 3, msOfDay := 0 }, isDate := true },
         isRecurring := false, occurrences := [] }] nowW "i" "n" "c" =
      [mkPushedEvent
        (basePushInfo
          { hasRecurrenceId := false, uid := some "w", summary := some "t",
            location := none,
            startDate := some { date := { day := 2, msOfDay := 0 }, isDate := true },
            endDate := { date := { day := 3, msOfDay := 0 }, isDate := true },
            isRecurring := false, occurrences := [] }
          { date := { day := 2, msOfDay := 0 }, isDate := true })
        { day := 2, msOfDay := 0 } { day := 3, msOfDay := 0 }
        "i" "n" "c" none] := by
  have h := (parseICS_nonrecurring_single [] []
    { hasRecurrenceId := false, uid := some "w", summary := some "t",
      location := none,
      startDate := some { date := { day := 2, msOfDay := 0 }, isDate := true },
      endDate := { date := { day := 3, msOfDay := 0 }, isDate := true },
      isRecurring := false, occurrences := [] }
    { date := { day := 2, msOfDay := 0 }, isDate := true }
    nowW "i" "n" "c" rfl rfl rfl).1
  simpa using h

theorem expandEmit_in_window (base : PushInfo) (rs re : Int)
    (cid cn col : String) (occs : List Occurrence) :
    ∀ (fuel : Nat) (e : CalendarEvent),
      e ∈ expandEmit base rs re cid cn col occs fuel →
      ∃ occ ∈ occs, e = occEvent base cid cn col occ ∧
        rs ≤ occ.time.getTime ∧ occ.time.getTime ≤ re := by
  induction occs with
  | nil =>
    intro fuel e he
    cases fuel <;> simp [expandEmit] at he
  | cons occ rest ih =>
    intro fuel e he
    cases fuel with
    | zero => simp [expandEmit] at he
    | succ fuel =>
      simp only [expandEmit] at he
      by_cases hgt : occ.time.getTime > re
      · simp [hgt] at he
      · by_cases hlt : occ.time.getTime < rs
        · rw [if_neg hgt, if_pos hlt] at he
          obtain ⟨occ', hmem, h⟩ := ih fuel e he
          exact ⟨occ', List.mem_cons_of_mem _ hmem, h⟩
        · rw [if_neg hgt, if_neg hlt] at he
          rcases List.mem_cons.mp he with rfl | he'
          · exact ⟨occ, List.mem_cons_self _ _, rfl, by omega, by omega⟩
          · obtain ⟨occ', hmem, h⟩ := ih fuel e he'
            exact ⟨occ', List.mem_cons_of_mem _ hmem, h⟩

theorem expandEmit_length (base : PushInfo) (rs re : Int)
    (cid cn col : String) (occs : List Occurrence) :
    ∀ (fuel : Nat),
      (expandEmit base rs re cid cn col occs fuel).length ≤ fuel := by
  induction occs with
  | nil =>
    intro fuel
    cases fuel <;> simp [expandEmit]
  | cons occ rest ih =>
    intro fuel
    cases fuel with
    | zero => simp [expandEmit]
    | succ fuel =>
      simp only [expandEmit]
      by_cases hgt : occ.time.getTime > re
      · simp [hgt]
      · by_cases hlt : occ.time.getTime < rs
        · rw [if_neg hgt, if_pos hlt]
          exact Nat.le_succ_of_le (ih fuel)
        · rw [if_neg hgt, if_neg hlt]
          simpa using Nat.succ_le_succ (ih fuel)

theorem expandEmit_take (base : PushInfo) (rs re : Int)
    (cid cn col : String) (occs : List Occurrence) :
    ∀ (fuel : Nat),
      expandEmit base rs re cid cn col occs fuel =
        expandEmit base rs re cid cn col (occs.take fuel) fuel := by
  induction occs with
  | nil => intro fuel; simp
  | cons occ rest ih =>
    intro fuel
    cases fuel with
    | zero => simp [expandEmit]
    | succ fuel =>
      simp only [List.take_succ_cons, expandEmit]
      by_cases hgt : occ.time.getTime > re
      · simp [hgt]
      · by_cases hlt : occ.time.getTime < rs
        · rw [if_neg hgt, if_pos hlt, if_neg hgt, if_pos hlt, ih fuel]
        · rw [if_neg hgt, if_neg hlt, if_neg hgt, if_neg hlt, ih fuel]

theorem expandEmit_stops_after_overflow (base : PushInfo) (rs re : Int)
    (cid cn col : String) (occ : Occurrence)
    (hover : occ.time.getTime > re) (ys : List Occurrence) :
    ∀ (xs : List Occurrence) (fuel : Nat),
      expandEmit base rs re cid cn col (xs ++ occ :: ys) fuel =
        expandEmit base rs re cid cn col (xs ++ [occ]) fuel := by
  intro xs
  induction xs with
  | nil =>
    intro fuel
    cases fuel with
    | zero => simp [expandEmit]
    | succ fuel =>
      simp only [List.nil_append, expandEmit]
      rw [if_pos hover, if_pos hover]
  | cons x xs' ih =>
    intro fuel
    cases fuel with
    | zero => simp [expandEmit]
    | succ fuel =>
      simp only [List.cons_append, expandEmit]
      by_cases hgt : x.time.getTime > re
      · rw [if_pos hgt, if_pos hgt]
      · by_cases hlt : x.time.getTime < rs
        · rw [if_neg hgt, if_pos hlt, if_neg hgt, if_pos hlt,
            List.append_eq, List.append_eq, ih fuel]
        · rw [if_neg hgt, if_neg hlt, if_neg hgt, if_neg hlt,
            List.append_eq, List.append_eq, ih fuel]

/-- C1 (amended): the recurrence expansion emits only occurrences whose
instant lies within `[rangeStart, rangeEnd]` and at most 500 of them; the
walk never consumes more than 500 iterator occurrences in total — so
occurrences skipped for lying before the window start DO count against the
500 cap — and it stops at the first occurrence exceeding the window end
(any later iterator content is irrelevant).  For a recurring VEVENT,
`parseICSEvents` performs exactly this walk with the window
`[now - 7 days, now + 90 days]`. -/
theorem parseICS_recurring_window_and_cap (base : PushInfo) (rs re : Int)
    (cid cn col : String) (occs : List Occurrence) :
    (∀ e ∈ expandEmit base rs re cid cn col occs maxOccurrences,
      ∃ occ ∈ occs, e = occEvent base cid cn col occ ∧
        rs ≤ occ.time.getTime ∧ occ.time.getTime ≤ re) ∧
    (expandEmit base rs re cid cn col occs maxOccurrences).length ≤ 500 ∧
    expandEmit base rs re cid cn col occs maxOccurrences =
      expandEmit base rs re cid cn col (occs.take 500) maxOccurrences ∧
    (∀ (xs ys : List Occurrence) (occ : Occurrence),
      occ.time.getTime > re →
      expandEmit base rs re cid cn col (xs ++ occ :: ys) maxOccurrences =
        expandEmit base rs re cid cn col (xs ++ [occ]) maxOccurrences) ∧
    (∀ (v : VEvent) (sd : ICalTime) (now : DateTime),
      v.hasRecurrenceId = false → v.startDate = some sd →
      v.isRecurring = true →
      parseICSEvents [v] now cid cn col =
        expandEmit (basePushInfo v sd)
          (DateTime.getTime
            { day := now.day - RECURRENCE_EXPAND_DAYS_PAST,
              msOfDay := now.msOfDay })
          (DateTime.getTime
            { day := now.day + RECURRENCE_EXPAND_DAYS_FUTURE,
              msOfDay := now.msOfDay })
          cid cn col v.occurrences maxOccurrences) := by
  refine ⟨expandEmit_in_window base rs re cid cn col occs maxOccurrences,
    expandEmit_length base rs re cid cn col occs maxOccurrences,
    expandEmit_take base rs re cid cn col occs maxOccurrences,
    fun xs ys occ h =>
      expandEmit_stops_after_overflow base rs re cid cn col occ h ys xs
        maxOccurrences,
    ?_⟩
  intro v sd now h1 h2 h3
  unfold parseICSEvents
  simp only [List.foldl_cons, List.foldl_nil]
  unfold parseVEventStep
  simp only [h1, h2, h3, if_false, if_true, Bool.false_eq_true]
  rw [expandLoop_eq_append]
  rfl

/-- C1 (counterexample to the claim as stated): a recurring series whose
iterator yields 500 occurrences before the window start followed by one
in-window occurrence.  The source loop counts the skipped pre-window
occurrences against the 500 cap, exhausts it, and emits nothing — whereas
the walk the claim describes (pre-window skips not counted against the
cap) emits the in-window occurrence. -/
theorem parseICS_recurring_cap_counterexample :
    parseICSEvents [vRunW] nowW "i" "n" "c" = [] ∧
    expandEmit pBaseW 0 8380800000 "i" "n" "c"
      (List.replicate 500 occPreW ++ [occInW]) maxOccurrences = [] ∧
    expandEmitSpecCap pBaseW 0 8380800000 "i" "n" "c"
      (List.replicate 500 occPreW ++ [occInW]) maxOccurrences =
      [occEvent pBaseW "i" "n" "c" occInW] := by
  set_option maxRecDepth 20000 in
  refine ⟨by decide, by decide, by decide⟩

/-- Witness for C1 at a concrete input: the single in-window occurrence is
emitted with its instant inside the window, and `parseICSEvents` on the
concrete recurring VEVENT equals the expansion walk. -/
theorem parseICS_recurring_window_and_cap_witness :
    (∃ occ ∈ [occInW],
      occEvent pBaseW "i" "n" "c" occInW = occEvent pBaseW "i" "n" "c" occ ∧
        (0 : Int) ≤ occ.time.getTime ∧ occ.time.getTime ≤ 8380800000) ∧
    parseICSEvents [vRunW] nowW "i" "n" "c" =
      expandEmit (basePushInfo vRunW
          { date := { day := -1, msOfDay := 0 }, isDate := false })
        (DateTime.getTime
          { day := nowW.day - RECURRENCE_EXPAND_DAYS_PAST,
            msOfDay := nowW.msOfDay })
        (DateTime.getTime
          { day := nowW.day + RECURRENCE_EXPAND_DAYS_FUTURE,
            msOfDay := nowW.msOfDay })
        "i" "n" "c" vRunW.occurrences maxOccurrences := by
  constructor
  · exact (parseICS_recurring_window_and_cap pBaseW 0 8380800000 "i" "n" "c"
      [occInW]).1 (occEvent pBaseW "i" "n" "c" occInW) (by decide)
  · exact (parseICS_recurring_window_and_cap pBaseW 0 8380800000 "i" "n" "c"
      [occInW]).2.2.2.2 vRunW
      { date := { day := -1, msOfDay := 0 }, isDate := false } nowW rfl rfl rfl

/-- C8: parsing is deterministic — two runs of the parse pipeline on the
same input (same vevents, feed identity and current time, and the same
text for the guard stage) produce element-wise identical event lists: the
same length and, at every index, the same event with the same id.  The
model is a pure function of its inputs, so no hidden randomness exists. -/
theorem parseICS_deterministic (vs : List VEvent) (now : DateTime)
    (cid cn col : String) (text : List Char) :
    (parseICSEvents vs now cid cn col).length =
      (parseICSEvents vs now cid cn col).length ∧
    (∀ i : Nat,
      (parseICSEvents vs now cid cn col)[i]? =
        (parseICSEvents vs now cid cn col)[i]? ∧
      ((parseICSEvents vs now cid cn col)[i]?).map CalendarEvent.id =
        ((parseICSEvents vs now cid cn col)[i]?).map CalendarEvent.id) ∧
    parseICSGate text = parseICSGate text :=
  ⟨rfl, fun _ => ⟨rfl, rfl⟩, rfl⟩

/-! ## Injectivity of the decimal id discriminator -/

theorem natDigitsAux_lt10 :
    ∀ (fuel n : Nat), n ≤ fuel → ∀ d ∈ natDigitsAux fuel n, d < 10 := by
  intro fuel
  induction fuel with
  | zero =>
    intro n hn d hd
    simp only [natDigitsAux] at hd
    simp at hd
    omega
  | succ fuel ih =>
    intro n hn d hd
    simp only [natDigitsAux] at hd
    by_cases h : n < 10
    · rw [if_pos h] at hd
      simp at hd
      omega
    · rw [if_neg h] at hd
      rcases List.mem_append.mp hd with h1 | h1
      · have hdiv : n / 10 ≤ fuel := by
          have := Nat.div_lt_self (by omega : 0 < n) (by omega : 1 < 10)
          omega
        exact ih (n / 10) hdiv d h1
      · have : d = n % 10 := by simpa using h1
        have := Nat.mod_lt n (by omega : 0 < 10)
        omega

theorem digitsVal_append_digit (ds : List Nat) (d : Nat) :
    digitsVal (ds ++ [d]) = digitsVal ds * 10 + d := by
  unfold digitsVal
  rw [List.foldl_append]
  rfl

theorem digitsVal_natDigitsAux :
    ∀ (fuel n : Nat), n ≤ fuel → digitsVal (natDigitsAux fuel n) = n := by
  intro fuel
  induction fuel with
  | zero =>
    intro n hn
    have : n = 0 := by omega
    subst this
    rfl
  | succ fuel ih =>
    intro n hn
    simp only [natDigitsAux]
    by_cases h : n < 10
    · rw [if_pos h]
      simp [digitsVal]
    · rw [if_neg h]
      rw [digitsVal_append_digit]
      have hdiv : n / 10 ≤ fuel := by
        have := Nat.div_lt_self (by omega : 0 < n) (by omega : 1 < 10)
        omega
      rw [ih (n / 10) hdiv]
      omega

theorem natDigits_injective (a b : Nat) (h : natDigits a = natDigits b) :
    a = b := by
  have ha := digitsVal_natDigitsAux a a (Nat.le_refl a)
  have hb := digitsVal_natDigitsAux b b (Nat.le_refl b)
  unfold natDigits at h
  rw [← ha, ← hb, h]

theorem digitChar_inj_lt :
    ∀ a < 10, ∀ b < 10, digitChar a = digitChar b → a = b := by
  decide

theorem digitChar_ne_dash : ∀ d < 10, digitChar d ≠ '-' := by
  decide

theorem map_digitChar_inj :
    ∀ (l1 l2 : List Nat), (∀ d ∈ l1, d < 10) → (∀ d ∈ l2, d < 10) →
      l1.map digitChar = l2.map digitChar → l1 = l2 := by
  intro l1
  induction l1 with
  | nil =>
    intro l2 _ _ h
    cases l2 with
    | nil => rfl
    | cons d l2' => simp at h
  | cons d l1' ih =>
    intro l2 h1 h2 h
    cases l2 with
    | nil => simp at h
    | cons e l2' =>
      simp only [List.map_cons, List.cons.injEq] at h
      have hd := digitChar_inj_lt d (h1 d (List.mem_cons_self _ _))
        e (h2 e (List.mem_cons_self _ _)) h.1
      rw [hd, ih l2' (fun x hx => h1 x (List.mem_cons_of_mem _ hx))
        (fun x hx => h2 x (List.mem_cons_of_mem _ hx)) h.2]

theorem natStr_injective (a b : Nat) (h : natStr a = natStr b) : a = b := by
  unfold natStr at h
  have hdata : (natDigits a).map digitChar = (natDigits b).map digitChar := by
    injection h
  exact natDigits_injective a b
    (map_digitChar_inj _ _
      (natDigitsAux_lt10 a a (Nat.le_refl a))
      (natDigitsAux_lt10 b b (Nat.le_refl b)) hdata)

theorem natDigitsAux_ne_nil (fuel n : Nat) : natDigitsAux fuel n ≠ [] := by
  cases fuel with
  | zero => simp [natDigitsAux]
  | succ fuel =>
    simp only [natDigitsAux]
    by_cases h : n < 10
    · simp [h]
    · simp [h]

theorem natStr_head_not_dash (n : Nat) :
    (natStr n).data.head? ≠ some '-' := by
  unfold natStr
  cases hd : natDigits n with
  | nil => exact absurd hd (natDigitsAux_ne_nil n n)
  | cons d ds =>
    have hdlt : d < 10 := by
      have := natDigitsAux_lt10 n n (Nat.le_refl n) d
      rw [show natDigitsAux n n = natDigits n from rfl, hd] at this
      exact this (List.mem_cons_self _ _)
    simp only [List.map_cons, List.head?_cons]
    intro hcon
    exact digitChar_ne_dash d hdlt (by injection hcon)

theorem intStr_injective (a b : Int) (h : intStr a = intStr b) : a = b := by
  cases a with
  | ofNat n =>
    cases b with
    | ofNat m =>
      simp only [intStr] at h
      rw [natStr_injective n m h]
    | negSucc m =>
      simp only [intStr] at h
      exfalso
      apply natStr_head_not_dash n
      rw [h, String.data_append]
      rfl
  | negSucc n =>
    cases b with
    | ofNat m =>
      simp only [intStr] at h
      exfalso
      apply natStr_head_not_dash m
      rw [← h, String.data_append]
      rfl
    | negSucc m =>
      simp only [intStr] at h
      have hdata := congrArg String.data h
      rw [String.data_append, String.data_append] at hdata
      have : (natStr (n + 1)).data = (natStr (m + 1)).data :=
        List.append_cancel_left hdata
      have hsucc := natStr_injective (n + 1) (m + 1) (String.ext this)
      have hnm : n = m := by omega
      rw [hnm]

theorem occEvent_id (base : PushInfo) (cid cn col : String)
    (occ : Occurrence) (ho : occ.overrideItem = none) (u : String)
    (hu : base.uid = some u) (hne : u ≠ "") :
    (occEvent base cid cn col occ).id =
      cid ++ "-" ++ u ++ "-" ++ intStr occ.time.getTime := by
  unfold occEvent mkPushedEvent
  simp [ho, hu, hne]

theorem expandEmit_ids_pairwise (base : PushInfo) (rs re : Int)
    (cid cn col : String) (u : String) (hu : base.uid = some u)
    (hne : u ≠ "") (occs : List Occurrence) :
    ∀ (fuel : Nat), (∀ occ ∈ occs, occ.overrideItem = none) →
      ((occs.map (fun o => o.time.getTime)).Pairwise (· ≠ ·)) →
      (expandEmit base rs re cid cn col occs fuel).Pairwise
        (fun a b => a.id ≠ b.id) := by
  induction occs with
  | nil =>
    intro fuel _ _
    cases fuel <;> simp [expandEmit]
  | cons occ rest ih =>
    intro fuel hov hp
    simp only [List.map_cons, List.pairwise_cons] at hp
    obtain ⟨hhead, htail⟩ := hp
    cases fuel with
    | zero => simp [expandEmit]
    | succ fuel =>
      simp only [expandEmit]
      by_cases hgt : occ.time.getTime > re
      · simp [hgt]
      · by_cases hlt : occ.time.getTime < rs
        · rw [if_neg hgt, if_pos hlt]
          exact ih fuel (fun o ho => hov o (List.mem_cons_of_mem _ ho)) htail
        · rw [if_neg hgt, if_neg hlt]
          refine List.Pairwise.cons ?_
            (ih fuel (fun o ho => hov o (List.mem_cons_of_mem _ ho)) htail)
          intro e he
          obtain ⟨occ', hmem', he', _, _⟩ :=
            expandEmit_in_window base rs re cid cn col rest fuel e he
          rw [he', occEvent_id base cid cn col occ
              (hov occ (List.mem_cons_self _ _)) u hu hne,
            occEvent_id base cid cn col occ'
              (hov occ' (List.mem_cons_of_mem _ hmem')) u hu hne]
          intro heq
          have hs : intStr occ.time.getTime = intStr occ'.time.getTime := by
            have hdata := congrArg String.data heq
            rw [String.data_append, String.data_append] at hdata
            exact String.ext (List.append_cancel_left hdata)
          exact hhead occ'.time.getTime (List.mem_map_of_mem _ hmem')
            (intStr_injective _ _ hs)

/-- C5 (amended): ids are derived from
`(feedId, uid, occurrence discriminator)`; within one recurring series
whose base event has a nonempty uid, whose occurrences carry no override
item, and whose occurrence times are pairwise distinct, the emitted events
have pairwise-distinct ids, and parsing the same feed state twice yields
identical events (id stability across refetches).  Uniqueness across the
whole merged set does NOT hold (the dash-concatenated derivation can
collide across feeds). -/
theorem recurring_series_ids_distinct_and_stable (base : PushInfo)
    (rs re : Int) (cid cn col : String) (occs : List Occurrence)
    (fuel : Nat) (u : String) (hu : base.uid = some u) (hne : u ≠ "")
    (hov : ∀ occ ∈ occs, occ.overrideItem = none)
    (ht : (occs.map (fun o => o.time.getTime)).Pairwise (· ≠ ·)) :
    (expandLoop base rs re cid cn col occs fuel []).Pairwise
      (fun a b => a.id ≠ b.id) ∧
    (∀ (vs : List VEvent) (now : DateTime),
      parseICSEvents vs now cid cn col = parseICSEvents vs now cid cn col) := by
  constructor
  · rw [expandLoop_eq_append]
    simp only [List.nil_append]
    exact expandEmit_ids_pairwise base rs re cid cn col u hu hne occs fuel
      hov ht
  · intro vs now
    rfl

/-- Witness for C5 (amended) at a concrete recurring series with two
in-window occurrences at distinct times. -/
theorem recurring_series_ids_distinct_and_stable_witness :
    (expandLoop pBaseW 0 8380800000 "i" "n" "c" [occInW, occIn2W] 500
      []).Pairwise (fun a b => a.id ≠ b.id) :=
  (recurring_series_ids_distinct_and_stable pBaseW 0 8380800000 "i" "n" "c"
    [occInW, occIn2W] 500 "u" rfl (by decide) (by decide) (by decide)).1

/-- C5 (counterexample to the claim as stated): two feeds with feed ids
"a" and "a-b" and uids "b-c" and "c" produce, via `parseICSEvents` and the
feed merge, two distinct events that share the id "a-b-c" — so Event ids
are not unique within the merged set. -/
theorem merged_ids_not_unique_counterexample :
    (mergeFeeds
      [("a", parseICSEvents [vDupA] nowW "a" "A" "red"),
       ("a-b", parseICSEvents [vDupB] nowW "a-b" "B" "blue")]).Nodup ∧
    ¬ (mergeFeeds
      [("a", parseICSEvents [vDupA] nowW "a" "A" "red"),
       ("a-b", parseICSEvents [vDupB] nowW "a-b" "B" "blue")]).Pairwise
        (fun a b => a.id ≠ b.id) := by
  constructor
  · decide
  · decide

/-! ## Lemmas about the normalizer guard -/

theorem stripCI_append (pat : List Char) :
    ∀ (s t r : List Char), stripCI pat s = some r →
      stripCI pat (s ++ t) = some (r ++ t) := by
  induction pat with
  | nil =>
    intro s t r h
    simp only [stripCI] at h
    injection h with h
    subst h
    rfl
  | cons p ps ih =>
    intro s t r h
    cases s with
    | nil => simp [stripCI] at h
    | cons c cs =>
      simp only [stripCI, List.cons_append] at h ⊢
      by_cases hc : lowerAscii p = lowerAscii c
      · rw [if_pos hc] at h ⊢
        exact ih cs t r h
      · rw [if_neg hc] at h
        cases h

theorem containsCI_append (pat t : List Char) :
    ∀ (s : List Char), containsCI pat s = true →
      containsCI pat (s ++ t) = true := by
  intro s
  induction s with
  | nil =>
    intro h
    simp only [containsCI] at h
    cases hr : stripCI pat [] with
    | none => rw [hr] at h; cases h
    | some r =>
      have hst := stripCI_append pat [] t r hr
      simp only [List.nil_append] at hst ⊢
      cases t with
      | nil =>
        simp [containsCI, hr]
      | cons c cs =>
        simp [containsCI, hst]
  | cons c cs ih =>
    intro h
    simp only [containsCI, Bool.or_eq_true] at h ⊢
    rcases h with h | h
    · left
      cases hr : stripCI pat (c :: cs) with
      | none => rw [hr] at h; cases h
      | some r =>
        have hst := stripCI_append pat (c :: cs) t r hr
        simp only [List.cons_append] at hst
        rw [List.append_eq, hst]
        rfl
    · right
      exact ih h

/-- C7: a document whose pre-normalized text contains the calendar-begin
marker (case-insensitively) but lacks the end terminator has
`END:VCALENDAR` appended by normalization, and `parseICS` then proceeds to
invoke the calendar parser on the repaired text; a document whose
normalized text contains no `BEGIN:VCALENDAR` makes `parseICS` throw the
not-a-calendar error before the calendar parser is ever invoked. -/
theorem normalize_repairs_and_gate_rejects :
    (∀ s : List Char,
      containsCI beginVCalendarChars (preNormalize s) = true →
      hasEndMarkerCI (preNormalize s) = false →
      normalizeICSText s =
        preNormalize s ++ crlfChars ++ endVCalendarChars ∧
      parseICSGate s = ParseOutcome.parsed (normalizeICSText s)) ∧
    (∀ s : List Char,
      containsCI beginVCalendarChars (normalizeICSText s) = false →
      parseICSGate s = ParseOutcome.notCalendar (normalizeICSText s)) := by
  constructor
  · intro s hb he
    have hnorm : normalizeICSText s =
        preNormalize s ++ crlfChars ++ endVCalendarChars := by
      simp only [normalizeICSText]
      rw [hb, he]
      simp
    refine ⟨hnorm, ?_⟩
    have hcontains : containsCI beginVCalendarChars (normalizeICSText s) =
        true := by
      rw [hnorm, List.append_assoc]
      exact containsCI_append beginVCalendarChars
        (crlfChars ++ endVCalendarChars) (preNormalize s) hb
    simp only [parseICSGate]
    rw [hcontains]
    rfl
  · intro s hb
    simp only [parseICSGate]
    rw [hb]
    rfl

/-- Witness for C7: a concrete truncated calendar (has `BEGIN:VCALENDAR`,
lacks `END:VCALENDAR`) is repaired and reaches the parser; a concrete HTML
page is rejected before the parser. -/
theorem normalize_repairs_and_gate_rejects_witness :
    (normalizeICSText "BEGIN:VCALENDAR\nX:Y".data =
      preNormalize "BEGIN:VCALENDAR\nX:Y".data ++ crlfChars ++
        endVCalendarChars ∧
     parseICSGate "BEGIN:VCALENDAR\nX:Y".data =
      ParseOutcome.parsed (normalizeICSText "BEGIN:VCALENDAR\nX:Y".data)) ∧
    parseICSGate "<html>error page</html>".data =
      ParseOutcome.notCalendar
        (normalizeICSText "<html>error page</html>".data) := by
  constructor
  · exact normalize_repairs_and_gate_rejects.1 "BEGIN:VCALENDAR\nX:Y".data
      (by decide) (by decide)
  · exact normalize_repairs_and_gate_rejects.2 "<html>error page</html>".data
      (by decide)
